import Mathlib

/-
  Verification of the clip-window planning, caption-alignment and
  retry-orchestration logic of lib/datasets/howto100m.py.

  Python floats are modelled as rationals (all the arithmetic the claims
  touch is exact), Python ints as Nat or Int, Python strings as lists of
  characters, pandas NaN text cells as none (isinstance(x, str) becomes
  Option.isSome), and the ambient random sources (random.uniform,
  random.randint) as explicit function parameters.
-/

/-- Overlap length of two closed intervals; from check_time (line 27). -/
def check_time (s1 e1 s2 e2 : ℚ) : ℚ :=
  max (min e1 e2 - max s1 s2) 0

/-- Clip window planner; from get_start_end_idx (lines 70-98).  The ambient
random source random.uniform is the parameter u: the source calls
random.uniform(0, delta) in the clip_idx == -1 branch. -/
def get_start_end_idx (video_size clip_size : ℚ) (clip_idx : ℤ) (num_clips : ℚ)
    (u : ℚ → ℚ → ℚ) : ℚ × ℚ :=
  let delta := max (video_size - clip_size) 0
  let start_idx : ℚ :=
    if clip_idx = -1 then u 0 delta else delta * (clip_idx : ℚ) / num_clips
  (start_idx, start_idx + clip_size - 1)

/-- torch.linspace s e n: n evenly spaced values from s to e inclusive. -/
def linspace (s e : ℚ) (n : ℕ) : List ℚ :=
  if n = 1 then [s]
  else (List.range n).map (fun (i : ℕ) => s + (i : ℚ) * (e - s) / ((n : ℚ) - 1))

/-- torch.clamp x lo hi. -/
def clamp (x lo hi : ℚ) : ℚ :=
  min (max x lo) hi

/-- Tensor.long(): conversion of a float to an integer by truncation toward
zero. -/
def trunc_toward_zero (x : ℚ) : ℤ :=
  if 0 ≤ x then Int.floor x else -Int.floor (-x)

/-- Index computation of temporal_sampling (lines 51-68): linspace from
start_idx to end_idx with num_samples points, clamped to
[0, frame_count - 1], converted to integers.  (The source then gathers the
frames at these indices with index_select; the frame tensor itself is
opaque, so the function is modelled at the level of the index list.) -/
def temporal_sampling (frame_count : ℕ) (start_idx end_idx : ℚ)
    (num_samples : ℕ) : List ℤ :=
  (linspace start_idx end_idx num_samples).map
    (fun x => trunc_toward_zero (clamp x 0 ((frame_count : ℚ) - 1)))

/-- The fixed-duration re-centering step of __getitem__ (lines 438-440):
a window shorter than FD - 1 is re-centered to length FD and clipped to
[0, duration]; any other window is left unchanged. -/
def reconcile_to_fd (start stop FD duration : ℚ) : ℚ × ℚ :=
  if stop - start < FD - 1 then
    let start2 := max ((stop + start) / 2 - FD / 2) 0
    (start2, min (start2 + FD) duration)
  else (start, stop)

/-- C1: get_start_end_idx satisfies: for numClips > 0, a nonnegative
clipIndex gives start = max(videoSize - clipSize, 0) * clipIndex / numClips;
clipIndex = -1 gives, for every outcome of the random source bounded by its
arguments, start in [0, max(videoSize - clipSize, 0)]; and in both cases
end = start + clipSize - 1. -/
theorem get_start_end_idx_correct (video_size clip_size : ℚ) (clip_idx : ℤ)
    (num_clips : ℚ) (u : ℚ → ℚ → ℚ)
    (hu : ∀ a b : ℚ, a ≤ b → a ≤ u a b ∧ u a b ≤ b) (hnc : 0 < num_clips) :
    (0 ≤ clip_idx →
      (get_start_end_idx video_size clip_size clip_idx num_clips u).1 =
        max (video_size - clip_size) 0 * (clip_idx : ℚ) / num_clips) ∧
    (clip_idx = -1 →
      0 ≤ (get_start_end_idx video_size clip_size clip_idx num_clips u).1 ∧
      (get_start_end_idx video_size clip_size clip_idx num_clips u).1 ≤
        max (video_size - clip_size) 0) ∧
    (get_start_end_idx video_size clip_size clip_idx num_clips u).2 =
      (get_start_end_idx video_size clip_size clip_idx num_clips u).1
        + clip_size - 1 := by
  refine ⟨?_, ?_, ?_⟩
  · intro hci
    have hne : clip_idx ≠ -1 := by omega
    simp [get_start_end_idx, hne]
  · intro hci
    have hd : (0 : ℚ) ≤ max (video_size - clip_size) 0 := le_max_right _ _
    have := hu 0 (max (video_size - clip_size) 0) hd
    simpa [get_start_end_idx, hci] using this
  · simp [get_start_end_idx]

theorem get_start_end_idx_correct_witness :
    ((0 : ℚ) < 4) ∧
    ((get_start_end_idx 100 20 2 4 (fun a _ => a)).1 =
        max (100 - 20) 0 * (2 : ℚ) / 4 ∧
      (get_start_end_idx 100 20 2 4 (fun a _ => a)).2 =
        (get_start_end_idx 100 20 2 4 (fun a _ => a)).1 + 20 - 1) := by
  have h := get_start_end_idx_correct 100 20 2 4 (fun a _ => a)
    (fun a b hab => ⟨le_refl a, hab⟩) (by norm_num)
  exact ⟨by norm_num, h.1 (by norm_num), h.2.2⟩

/-- C3 counterexample: at start = 10, end = 10, FD = 8, duration = 10 the
window satisfies 0 ≤ start ≤ end ≤ duration and end - start < FD - 1, yet
the re-centered result is (6, 10), of length 4, which is strictly less than
min(FD, duration) = 8.  So the claimed lower bound min(FD, duration) on the
result length is false. -/
theorem reconcile_to_fd_counterexample :
    ((0 : ℚ) ≤ 10 ∧ (10 : ℚ) ≤ 10 ∧ (10 : ℚ) ≤ 10 ∧
      (10 : ℚ) - 10 < 8 - 1) ∧
    reconcile_to_fd 10 10 8 10 = (6, 10) ∧
    ((reconcile_to_fd 10 10 8 10).2 - (reconcile_to_fd 10 10 8 10).1 <
      min (8 : ℚ) 10) := by
  refine ⟨by norm_num, ?_, ?_⟩
  · norm_num [reconcile_to_fd]
  · norm_num [reconcile_to_fd]

/-- C3 (amended): reconcile_to_fd on a too-short window (end - start <
FD - 1 with 0 ≤ start ≤ end ≤ duration) returns a window of length at
least min(FD / 2, duration). -/
theorem reconcile_to_fd_short_length (start stop FD duration : ℚ)
    (h0 : 0 ≤ start) (hse : start ≤ stop) (hsd : stop ≤ duration)
    (hshort : stop - start < FD - 1) :
    min (FD / 2) duration ≤
      (reconcile_to_fd start stop FD duration).2 -
        (reconcile_to_fd start stop FD duration).1 := by
  have hFD : (1 : ℚ) < FD := by linarith
  rw [reconcile_to_fd, if_pos hshort]
  dsimp only
  rcases le_total ((stop + start) / 2 - FD / 2) 0 with hm | hm
  · rw [max_eq_right hm]
    rcases le_total (0 + FD) duration with hd | hd
    · rw [min_eq_left hd]
      have : FD / 2 ≤ FD := by linarith
      exact le_trans (min_le_left _ _) (by linarith)
    · rw [min_eq_right hd]
      exact le_trans (min_le_right _ _) (by linarith)
  · rw [max_eq_left hm]
    have hmid : (stop + start) / 2 ≤ duration := by linarith
    rcases le_total ((stop + start) / 2 - FD / 2 + FD) duration with hd | hd
    · rw [min_eq_left hd]
      have : FD / 2 ≤ FD := by linarith
      exact le_trans (min_le_left _ _) (by linarith)
    · rw [min_eq_right hd]
      have : FD / 2 ≤ duration - ((stop + start) / 2 - FD / 2) := by linarith
      exact le_trans (min_le_left _ _) this

theorem reconcile_to_fd_short_length_witness :
    ((0 : ℚ) ≤ 10 ∧ (10 : ℚ) ≤ 10 ∧ (10 : ℚ) ≤ 10 ∧
      (10 : ℚ) - 10 < 8 - 1) ∧
    min ((8 : ℚ) / 2) 10 ≤
      (reconcile_to_fd 10 10 8 10).2 - (reconcile_to_fd 10 10 8 10).1 := by
  refine ⟨by norm_num, ?_⟩
  exact reconcile_to_fd_short_length 10 10 8 10 (by norm_num) (by norm_num)
    (by norm_num) (by norm_num)

lemma linspace_length (s e : ℚ) (n : ℕ) : (linspace s e n).length = n := by
  unfold linspace
  split
  · simp [*]
  · simp

lemma trunc_toward_zero_mono {x y : ℚ} (h : x ≤ y) :
    trunc_toward_zero x ≤ trunc_toward_zero y := by
  unfold trunc_toward_zero
  by_cases hx : 0 ≤ x
  · rw [if_pos hx, if_pos (le_trans hx h)]
    exact Int.floor_le_floor h
  · by_cases hy : 0 ≤ y
    · rw [if_neg hx, if_pos hy]
      have h1 : (0 : ℤ) ≤ Int.floor (-x) := by
        rw [Int.floor_nonneg]; linarith
      have h2 : (0 : ℤ) ≤ Int.floor y := by
        rw [Int.floor_nonneg]; exact hy
      omega
    · rw [if_neg hx, if_neg hy]
      have : Int.floor (-y) ≤ Int.floor (-x) := Int.floor_le_floor (by linarith)
      omega

lemma clamp_mono {x y : ℚ} (lo hi : ℚ) (h : x ≤ y) :
    clamp x lo hi ≤ clamp y lo hi :=
  min_le_min (max_le_max h le_rfl) le_rfl

lemma linspace_pairwise (s e : ℚ) (n : ℕ) (h : s ≤ e) :
    List.Pairwise (· ≤ ·) (linspace s e n) := by
  rcases n with _ | _ | m
  · simp [linspace]
  · simp [linspace]
  · unfold linspace
    rw [if_neg (by omega), List.pairwise_map]
    refine (List.pairwise_lt_range _).imp ?_
    intro a b hab
    have hc : (0 : ℚ) ≤ (e - s) / ((m : ℚ) + 1 + 1 - 1) := by
      apply div_nonneg (by linarith)
      have : (0 : ℚ) ≤ (m : ℚ) := Nat.cast_nonneg m
      linarith
    have hcast : ((a : ℚ)) ≤ (b : ℚ) := by exact_mod_cast le_of_lt hab
    have h2 := mul_le_mul_of_nonneg_right hcast hc
    push_cast
    rw [mul_div_assoc, mul_div_assoc]
    linarith

/-- C7: temporal_sampling returns exactly num_samples indices obtained by
linear interpolation between start_idx and end_idx inclusive, each clamped
to [0, frame_count - 1] and truncated to an integer; for
start_idx ≤ end_idx the indices are non-decreasing, and the concrete call
with frame_count = 10, start = 0, end = 9, num_samples = 4 yields
[0, 3, 6, 9]. -/
theorem temporal_sampling_correct (frame_count : ℕ) (s e : ℚ) (n : ℕ)
    (hse : s ≤ e) (hfc : 1 ≤ frame_count) :
    (temporal_sampling frame_count s e n).length = n ∧
    List.Pairwise (· ≤ ·) (temporal_sampling frame_count s e n) ∧
    (∀ z ∈ temporal_sampling frame_count s e n,
      0 ≤ z ∧ z ≤ (frame_count : ℤ) - 1) ∧
    temporal_sampling 10 0 9 4 = [0, 3, 6, 9] := by
  refine ⟨?_, ?_, ?_, ?_⟩
  · rw [temporal_sampling, List.length_map, linspace_length]
  · rw [temporal_sampling, List.pairwise_map]
    exact (linspace_pairwise s e n hse).imp
      (fun hab => trunc_toward_zero_mono (clamp_mono 0 _ hab))
  · intro z hz
    rw [temporal_sampling, List.mem_map] at hz
    obtain ⟨x, _, hx⟩ := hz
    have hfc1 : (0 : ℚ) ≤ (frame_count : ℚ) - 1 := by
      have : (1 : ℚ) ≤ (frame_count : ℚ) := by exact_mod_cast hfc
      linarith
    have hlo : (0 : ℚ) ≤ clamp x 0 ((frame_count : ℚ) - 1) :=
      le_min (le_max_right x 0) hfc1
    have hhi : clamp x 0 ((frame_count : ℚ) - 1) ≤ (frame_count : ℚ) - 1 :=
      min_le_right _ _
    rw [← hx, trunc_toward_zero, if_pos hlo]
    constructor
    · rw [Int.floor_nonneg]; exact hlo
    · have h1 : clamp x 0 ((frame_count : ℚ) - 1) ≤
          (((frame_count : ℤ) - 1 : ℤ) : ℚ) := by push_cast; exact hhi
      have := Int.floor_le_floor h1
      rwa [Int.floor_intCast] at this
  · norm_num [temporal_sampling, linspace, clamp, trunc_toward_zero,
      List.range_succ, min_def, max_def]

theorem temporal_sampling_correct_witness :
    ((0 : ℚ) ≤ 9 ∧ 1 ≤ 10) ∧
    (temporal_sampling 10 0 9 4).length = 4 ∧
    List.Pairwise (· ≤ ·) (temporal_sampling 10 0 9 4) ∧
    (∀ z ∈ temporal_sampling 10 0 9 4, 0 ≤ z ∧ z ≤ (10 : ℤ) - 1) ∧
    temporal_sampling 10 0 9 4 = [0, 3, 6, 9] := by
  have h := temporal_sampling_correct 10 0 9 4 (by norm_num) (by norm_num)
  exact ⟨⟨by norm_num, by norm_num⟩, h⟩

/-- Python str.split(sep) with an explicit one-character separator: always
returns at least one piece, keeps empty pieces. -/
def py_split (c : Char) : List Char → List (List Char)
  | [] => [[]]
  | x :: xs =>
    let r := py_split c xs
    if x = c then [] :: r
    else (x :: r.headD []) :: r.tail

/-- One row of a per-video caption table (pandas columns start, end, text);
strings are modelled as lists of characters, and a NaN cell in the text
column is modelled as none, so isinstance(x, str) becomes Option.isSome. -/
structure CapRow where
  start : ℚ
  stop : ℚ
  text : Option (List Char)
deriving DecidableEq, Inhabited

/-- np.argmax on a list of scores, as index and value of the first maximal
element (numpy documents that ties return the first occurrence); none for
an empty list. -/
def argmax_val : List ℚ → Option (ℕ × ℚ)
  | [] => none
  | x :: xs =>
    match argmax_val xs with
    | none => some (0, x)
    | some (i, v) => if x < v then some (i + 1, v) else some (0, x)

/-- np.argmax as used at line 388 of the source: index of the first maximal
score. -/
def np_argmax (l : List ℚ) : ℕ :=
  match argmax_val l with
  | none => 0
  | some (i, _) => i

/-- The per-row overlap scores built in the temp list of lines 381-387:
every row scored by check_time against the sample window. -/
def overlap_scores (cap : List CapRow) (start stop : ℚ) : List ℚ :=
  cap.map (fun r => check_time start stop r.start r.stop)

/-- Caption record selection when the sample window is known
(lines 381-388): np.argmax of the overlap scores. -/
def select_caption_index (cap : List CapRow) (start stop : ℚ) : ℕ :=
  np_argmax (overlap_scores cap start stop)

lemma argmax_val_eq_none {l : List ℚ} : argmax_val l = none ↔ l = [] := by
  cases l with
  | nil => simp [argmax_val]
  | cons x xs =>
    simp only [argmax_val]
    constructor
    · intro h
      cases hx : argmax_val xs with
      | none => rw [hx] at h; simp at h
      | some p => rw [hx] at h; rcases p with ⟨i, v⟩; by_cases hv : x < v <;>
          simp [hv] at h
    · intro h; simp at h

lemma argmax_val_spec {l : List ℚ} {i : ℕ} {v : ℚ}
    (h : argmax_val l = some (i, v)) :
    i < l.length ∧ l.getD i 0 = v ∧ (∀ j < l.length, l.getD j 0 ≤ v) ∧
      (∀ j < i, l.getD j 0 < v) := by
  induction l generalizing i v with
  | nil => simp [argmax_val] at h
  | cons x xs ih =>
    rw [argmax_val] at h
    cases hx : argmax_val xs with
    | none =>
      rw [hx] at h
      simp only [Option.some.injEq, Prod.mk.injEq] at h
      obtain ⟨hi, hv⟩ := h
      have hxs : xs = [] := argmax_val_eq_none.mp hx
      subst hi hv hxs
      refine ⟨by simp, by simp, ?_, by omega⟩
      intro j hj
      simp only [List.length_cons, List.length_nil] at hj
      have hj0 : j = 0 := by omega
      subst hj0
      simp
    | some p =>
      rcases p with ⟨i2, v2⟩
      rw [hx] at h
      dsimp only at h
      obtain ⟨h1, h2, h3, h4⟩ := ih hx
      by_cases hlt : x < v2
      · rw [if_pos hlt] at h
        simp only [Option.some.injEq, Prod.mk.injEq] at h
        obtain ⟨hi, hv⟩ := h
        subst hi hv
        refine ⟨by simp; omega, by simpa using h2, ?_, ?_⟩
        · intro j hj
          cases j with
          | zero => simpa using le_of_lt hlt
          | succ k => simp only [List.getD_cons_succ]
                      exact h3 k (by simpa using hj)
        · intro j hj
          cases j with
          | zero => simpa using hlt
          | succ k => simp only [List.getD_cons_succ]
                      exact h4 k (by omega)
      · rw [if_neg hlt] at h
        simp only [Option.some.injEq, Prod.mk.injEq] at h
        obtain ⟨hi, hv⟩ := h
        subst hi hv
        push_neg at hlt
        refine ⟨by simp, by simp, ?_, by omega⟩
        intro j hj
        cases j with
        | zero => simp
        | succ k => simp only [List.getD_cons_succ]
                    exact le_trans (h3 k (by simpa using hj)) hlt

lemma np_argmax_spec (l : List ℚ) (h : l ≠ []) :
    np_argmax l < l.length ∧
      (∀ j < l.length, l.getD j 0 ≤ l.getD (np_argmax l) 0) ∧
      (∀ j < np_argmax l, l.getD j 0 < l.getD (np_argmax l) 0) := by
  cases hx : argmax_val l with
  | none => exact absurd (argmax_val_eq_none.mp hx) h
  | some p =>
    rcases p with ⟨i, v⟩
    obtain ⟨h1, h2, h3, h4⟩ := argmax_val_spec hx
    have hnp : np_argmax l = i := by rw [np_argmax, hx]
    rw [hnp, h2]
    exact ⟨h1, h3, h4⟩

/-- C4: with a known target window, the caption aligner picks the record
whose check_time overlap with the window is maximal, ties broken by first
occurrence (every score is at most the selected score, and every earlier
score is strictly smaller); on the records (0,5,a), (4,10,b), (20,25,c)
with window (3,6) the scores are 2, 2, 0 and record a (index 0) is
selected. -/
theorem select_caption_index_correct (cap : List CapRow) (start stop : ℚ)
    (h : cap ≠ []) :
    (select_caption_index cap start stop < cap.length ∧
      (∀ j < cap.length,
        (overlap_scores cap start stop).getD j 0 ≤
        (overlap_scores cap start stop).getD
          (select_caption_index cap start stop) 0) ∧
      (∀ j < select_caption_index cap start stop,
        (overlap_scores cap start stop).getD j 0 <
        (overlap_scores cap start stop).getD
          (select_caption_index cap start stop) 0)) ∧
    (overlap_scores
        [⟨0, 5, some ['a']⟩, ⟨4, 10, some ['b']⟩, ⟨20, 25, some ['c']⟩] 3 6 =
        [2, 2, 0] ∧
      select_caption_index
        [⟨0, 5, some ['a']⟩, ⟨4, 10, some ['b']⟩, ⟨20, 25, some ['c']⟩] 3 6 = 0 ∧
      (([⟨0, 5, some ['a']⟩, ⟨4, 10, some ['b']⟩,
          (⟨20, 25, some ['c']⟩ : CapRow)].getD
        (select_caption_index
          [⟨0, 5, some ['a']⟩, ⟨4, 10, some ['b']⟩, ⟨20, 25, some ['c']⟩] 3 6)
        default).text = some ['a'])) := by
  constructor
  · have hm : overlap_scores cap start stop ≠ [] := by
      simp only [overlap_scores]
      simpa using h
    obtain ⟨h1, h2, h3⟩ := np_argmax_spec (overlap_scores cap start stop) hm
    have hlen : (overlap_scores cap start stop).length = cap.length := by
      simp [overlap_scores]
    rw [hlen] at h1 h2
    exact ⟨h1, h2, h3⟩
  · refine ⟨?_, ?_, ?_⟩
    · norm_num [overlap_scores, check_time, min_def, max_def]
    · norm_num [select_caption_index, overlap_scores, np_argmax, argmax_val,
        check_time, min_def, max_def]
    · norm_num [select_caption_index, overlap_scores, np_argmax, argmax_val,
        check_time, min_def, max_def]

theorem select_caption_index_correct_witness :
    ([⟨0, 5, some ['a']⟩, ⟨4, 10, some ['b']⟩,
        (⟨20, 25, some ['c']⟩ : CapRow)] ≠ []) ∧
    select_caption_index
      [⟨0, 5, some ['a']⟩, ⟨4, 10, some ['b']⟩, ⟨20, 25, some ['c']⟩] 3 6 < 3 ∧
    (([⟨0, 5, some ['a']⟩, ⟨4, 10, some ['b']⟩,
        (⟨20, 25, some ['c']⟩ : CapRow)].getD
      (select_caption_index
        [⟨0, 5, some ['a']⟩, ⟨4, 10, some ['b']⟩, ⟨20, 25, some ['c']⟩] 3 6)
      default).text = some ['a']) := by
  have h := select_caption_index_correct
    [⟨0, 5, some ['a']⟩, ⟨4, 10, some ['b']⟩, ⟨20, 25, some ['c']⟩] 3 6
    (by simp)
  exact ⟨by simp, by simpa using h.1.1, h.2.2.2⟩

/-- Result of the minimum-length caption expansion loop (lines 394-413):
the accumulated text q, the merged window bounds s and e, the final value
of the counter mi, and the list of row indices the loop read (the guards
short-circuit, so a side is read only when its bound check passes). -/
structure ExpandResult where
  q : List Char
  s : ℚ
  e : ℚ
  mi : ℕ
  trace : List ℕ
deriving DecidableEq

/-- len(q.split(" ")): the word count used by the while condition at
line 400. -/
def word_count (q : List Char) : ℕ :=
  (py_split ' ' q).length

/-- The while loop of lines 400-413, by fuel over the iteration count.  One
iteration: if the word count is still below min_len, pull the row at
ind - mi when ind - mi > 0 and its text is a string (prepending its text
and taking its start), pull the row at ind + mi when ind + mi < len(cap)
and its text is a string (appending its text and taking its end),
increment mi, and break when neither side remains in range. -/
def expand_loop (cap : List CapRow) (ind min_len : ℕ) :
    ℕ → List Char → ℚ → ℚ → ℕ → ExpandResult
  | 0, q, s, e, mi => ⟨q, s, e, mi, []⟩
  | fuel + 1, q, s, e, mi =>
    if word_count q < min_len then
      let pullLeft := mi < ind ∧ ((cap.getD (ind - mi) default).text).isSome
      let q1 := if pullLeft then
          ((cap.getD (ind - mi) default).text).getD [] ++ [' '] ++ q else q
      let s1 := if pullLeft then (cap.getD (ind - mi) default).start else s
      let pullRight := ind + mi < cap.length ∧
          ((cap.getD (ind + mi) default).text).isSome
      let q2 := if pullRight then
          q1 ++ [' '] ++ ((cap.getD (ind + mi) default).text).getD [] else q1
      let e2 := if pullRight then (cap.getD (ind + mi) default).stop else e
      let tr := (if mi < ind then [ind - mi] else []) ++
          (if ind + mi < cap.length then [ind + mi] else [])
      if ¬ mi + 1 < ind ∧ ¬ ind + mi + 1 < cap.length then
        ⟨q2, s1, e2, mi + 1, tr⟩
      else
        let r := expand_loop cap ind min_len fuel q2 s1 e2 (mi + 1)
        ⟨r.q, r.s, r.e, r.mi, tr ++ r.trace⟩
    else ⟨q, s, e, mi, []⟩

/-- The full minimum-length expansion of lines 394-413: q starts as the
selected row's text (a single space when the cell is not a string), s and
e as the selected row's bounds, mi as 0.  The loop runs at most
max ind (len - ind) + 1 iterations before its break fires, so this fuel is
sufficient; the selected row itself is read first (index ind on the
trace). -/
def min_len_expand (cap : List CapRow) (ind min_len : ℕ) : ExpandResult :=
  let row := cap.getD ind default
  let q0 := match row.text with | some t => t | none => [' ']
  let r := expand_loop cap ind min_len (max ind (cap.length - ind) + 1)
    q0 row.start row.stop 0
  ⟨r.q, r.s, r.e, r.mi, ind :: r.trace⟩

/-- Modelled from the spec: the claim says a neighbor contributes "only if
its text is a non-empty string".  This predicate is that condition; the
source itself only checks isinstance(x, str). -/
def nonempty_str : Option (List Char) → Bool
  | some t => !t.isEmpty
  | none => false

/-- Modelled from the spec: the expansion loop as the claim describes it,
identical to expand_loop except that a neighbor is pulled only when its
text is a non-empty string. -/
def expand_loop_claim (cap : List CapRow) (ind min_len : ℕ) :
    ℕ → List Char → ℚ → ℚ → ℕ → ExpandResult
  | 0, q, s, e, mi => ⟨q, s, e, mi, []⟩
  | fuel + 1, q, s, e, mi =>
    if word_count q < min_len then
      let pullLeft := mi < ind ∧ nonempty_str ((cap.getD (ind - mi) default).text)
      let q1 := if pullLeft then
          ((cap.getD (ind - mi) default).text).getD [] ++ [' '] ++ q else q
      let s1 := if pullLeft then (cap.getD (ind - mi) default).start else s
      let pullRight := ind + mi < cap.length ∧
          nonempty_str ((cap.getD (ind + mi) default).text)
      let q2 := if pullRight then
          q1 ++ [' '] ++ ((cap.getD (ind + mi) default).text).getD [] else q1
      let e2 := if pullRight then (cap.getD (ind + mi) default).stop else e
      let tr := (if mi < ind then [ind - mi] else []) ++
          (if ind + mi < cap.length then [ind + mi] else [])
      if ¬ mi + 1 < ind ∧ ¬ ind + mi + 1 < cap.length then
        ⟨q2, s1, e2, mi + 1, tr⟩
      else
        let r := expand_loop_claim cap ind min_len fuel q2 s1 e2 (mi + 1)
        ⟨r.q, r.s, r.e, r.mi, tr ++ r.trace⟩
    else ⟨q, s, e, mi, []⟩

/-- Modelled from the spec: min_len_expand as the claim describes it. -/
def min_len_expand_claim (cap : List CapRow) (ind min_len : ℕ) : ExpandResult :=
  let row := cap.getD ind default
  let q0 := match row.text with | some t => t | none => [' ']
  let r := expand_loop_claim cap ind min_len (max ind (cap.length - ind) + 1)
    q0 row.start row.stop 0
  ⟨r.q, r.s, r.e, r.mi, ind :: r.trace⟩

lemma expand_loop_exit (cap : List CapRow) (ind min_len : ℕ) :
    ∀ fuel mi q s e, max ind (cap.length - ind) < fuel + mi →
      min_len ≤ word_count (expand_loop cap ind min_len fuel q s e mi).q ∨
        (ind ≤ (expand_loop cap ind min_len fuel q s e mi).mi ∧
          cap.length ≤ ind + (expand_loop cap ind min_len fuel q s e mi).mi) := by
  intro fuel
  induction fuel with
  | zero =>
    intro mi q s e hf
    simp only [expand_loop]
    right
    refine ⟨by omega, by omega⟩
  | succ fuel ih =>
    intro mi q s e hf
    rw [expand_loop]
    by_cases hw : word_count q < min_len
    · rw [if_pos hw]
      dsimp only
      by_cases hb : ¬ mi + 1 < ind ∧ ¬ ind + mi + 1 < cap.length
      · rw [if_pos hb]
        dsimp only
        right
        refine ⟨by omega, by omega⟩
      · rw [if_neg hb]
        dsimp only
        exact ih (mi + 1) _ _ _ (by omega)
    · rw [if_neg hw]
      dsimp only
      left
      omega

lemma expand_loop_trace (cap : List CapRow) (ind min_len : ℕ)
    (hind : ind < cap.length) :
    ∀ fuel mi q s e,
      ∀ i ∈ (expand_loop cap ind min_len fuel q s e mi).trace,
        i < cap.length := by
  intro fuel
  induction fuel with
  | zero =>
    intro mi q s e i hi
    simp [expand_loop] at hi
  | succ fuel ih =>
    intro mi q s e i hi
    rw [expand_loop] at hi
    by_cases hw : word_count q < min_len
    · rw [if_pos hw] at hi
      dsimp only at hi
      by_cases hb : ¬ mi + 1 < ind ∧ ¬ ind + mi + 1 < cap.length
      · rw [if_pos hb] at hi
        dsimp only at hi
        rw [List.mem_append] at hi
        rcases hi with hi | hi
        · by_cases hL : mi < ind
          · rw [if_pos hL] at hi
            simp at hi
            omega
          · rw [if_neg hL] at hi
            simp at hi
        · by_cases hR : ind + mi < cap.length
          · rw [if_pos hR] at hi
            simp at hi
            omega
          · rw [if_neg hR] at hi
            simp at hi
      · rw [if_neg hb] at hi
        dsimp only at hi
        rw [List.mem_append] at hi
        rcases hi with hi | hi
        · rw [List.mem_append] at hi
          rcases hi with hi | hi
          · by_cases hL : mi < ind
            · rw [if_pos hL] at hi
              simp at hi
              omega
            · rw [if_neg hL] at hi
              simp at hi
          · by_cases hR : ind + mi < cap.length
            · rw [if_pos hR] at hi
              simp at hi
              omega
            · rw [if_neg hR] at hi
              simp at hi
        · exact ih (mi + 1) _ _ _ i hi
    · rw [if_neg hw] at hi
      simp at hi

/-- C5 counterexample: on the caption table with rows (0, 1, "w") and
(5, 6, "") and selected index 0 with min_len = 3, the source loop pulls
the second row even though its text is the empty string, setting the
merged end bound to 6; under the claim's rule (pull only non-empty-string
neighbors) the end bound would stay 1.  So the parenthetical "a neighbor
contributes only if its text is a non-empty string" is false of the
code. -/
theorem min_len_expand_counterexample :
    (min_len_expand [⟨0, 1, some ['w']⟩, ⟨5, 6, some []⟩] 0 3).e = 6 ∧
    (min_len_expand_claim [⟨0, 1, some ['w']⟩, ⟨5, 6, some []⟩] 0 3).e = 1 ∧
    (min_len_expand [⟨0, 1, some ['w']⟩, ⟨5, 6, some []⟩] 0 3).e ≠
      (min_len_expand_claim [⟨0, 1, some ['w']⟩, ⟨5, 6, some []⟩] 0 3).e := by
  refine ⟨by decide, by decide, by decide⟩

/-- C5 (amended): the expansion loop widens the selected record by pulling
the records at distance mi on each side (a side contributes whenever its
index is in range, with the extra quirk that index 0 is never pulled on
the left, and its text cell is a string, possibly empty), and for every
selected index in range it never reads a row index outside
[0, len(records)), and on exit either the cumulative word count has
reached min_len or both directions are exhausted (mi has passed both
ends). -/
theorem min_len_expand_safe (cap : List CapRow) (ind min_len : ℕ)
    (h : ind < cap.length) :
    (∀ i ∈ (min_len_expand cap ind min_len).trace, i < cap.length) ∧
    (min_len ≤ word_count (min_len_expand cap ind min_len).q ∨
      (ind ≤ (min_len_expand cap ind min_len).mi ∧
        cap.length ≤ ind + (min_len_expand cap ind min_len).mi)) := by
  unfold min_len_expand
  dsimp only
  constructor
  · intro i hi
    rcases List.mem_cons.mp hi with hi | hi
    · omega
    · exact expand_loop_trace cap ind min_len h _ 0 _ _ _ i hi
  · exact expand_loop_exit cap ind min_len
      (max ind (cap.length - ind) + 1) 0 _ _ _ (by omega)

theorem min_len_expand_safe_witness :
    (0 < ([⟨0, 1, some ['w']⟩, (⟨5, 6, some []⟩ : CapRow)] : List CapRow).length) ∧
    (∀ i ∈ (min_len_expand [⟨0, 1, some ['w']⟩, ⟨5, 6, some []⟩] 0 3).trace,
      i < ([⟨0, 1, some ['w']⟩, (⟨5, 6, some []⟩ : CapRow)] : List CapRow).length) ∧
    (3 ≤ word_count (min_len_expand [⟨0, 1, some ['w']⟩, ⟨5, 6, some []⟩] 0 3).q ∨
      (0 ≤ (min_len_expand [⟨0, 1, some ['w']⟩, ⟨5, 6, some []⟩] 0 3).mi ∧
        ([⟨0, 1, some ['w']⟩, (⟨5, 6, some []⟩ : CapRow)] : List CapRow).length ≤
          0 + (min_len_expand [⟨0, 1, some ['w']⟩, ⟨5, 6, some []⟩] 0 3).mi)) := by
  have h := min_len_expand_safe [⟨0, 1, some ['w']⟩, ⟨5, 6, some []⟩] 0 3
    (by decide)
  exact ⟨by decide, h.1, h.2⟩

/-- The three dataset modes accepted by Howto100m.__init__. -/
inductive Mode
  | train
  | val
  | test
deriving DecidableEq

/-- Index update after a container-open failure (lines 350-360): the source
replaces the index with the freshly drawn random index only when the mode
is not test AND i_try > num_retries // 2; otherwise the index is kept. -/
def open_fail_update (mode : Mode) (i_try num_retries index rand_idx : ℕ) : ℕ :=
  if mode ≠ Mode.test ∧ num_retries / 2 < i_try then rand_idx else index

/-- Index update after a decode failure (lines 498-510): two sequential if
statements; non-test modes always replace, test mode replaces only when
i_try > num_retries // 2. -/
def decode_fail_update (mode : Mode) (i_try num_retries index rand_idx : ℕ) : ℕ :=
  let index1 := if mode ≠ Mode.test then rand_idx else index
  let index2 := if mode = Mode.test ∧ num_retries / 2 < i_try then rand_idx
    else index1
  index2

/-- C2 counterexample: in train mode on the very first container-open
failure (i_try = 0, num_retries = 20) the source keeps the old index 5
instead of substituting the random index 7, and in test mode an open
failure never substitutes even after more than half the budget
(i_try = 15).  The claim predicts substitution (index 7) in the first case
and substitution after half budget in the second. -/
theorem retry_substitution_counterexample :
    open_fail_update Mode.train 0 20 5 7 = 5 ∧ (5 : ℕ) ≠ 7 ∧
    open_fail_update Mode.test 15 20 5 7 = 5 := by
  refine ⟨by decide, by decide, by decide⟩

/-- C2 (amended): on a decode failure non-test modes replace the sample
index immediately with the random index and test mode replaces exactly
when i_try > num_retries // 2; on a container-open failure test mode never
replaces, non-test modes replace exactly when i_try > num_retries // 2. -/
theorem retry_substitution_policy (mode : Mode)
    (i_try num_retries index rand_idx : ℕ) :
    (mode ≠ Mode.test →
      decode_fail_update mode i_try num_retries index rand_idx = rand_idx) ∧
    (decode_fail_update Mode.test i_try num_retries index rand_idx =
      if num_retries / 2 < i_try then rand_idx else index) ∧
    (open_fail_update Mode.test i_try num_retries index rand_idx = index) ∧
    (mode ≠ Mode.test → num_retries / 2 < i_try →
      open_fail_update mode i_try num_retries index rand_idx = rand_idx) ∧
    (i_try ≤ num_retries / 2 →
      open_fail_update mode i_try num_retries index rand_idx = index) := by
  refine ⟨?_, ?_, ?_, ?_, ?_⟩
  · intro h
    simp [decode_fail_update, h]
  · simp [decode_fail_update]
  · simp [open_fail_update]
  · intro h1 h2
    simp [open_fail_update, h1, h2]
  · intro h1
    rw [open_fail_update, if_neg]
    rintro ⟨-, h2⟩
    omega

theorem retry_substitution_policy_witness :
    (Mode.train ≠ Mode.test) ∧
    decode_fail_update Mode.train 0 20 5 7 = 7 ∧
    ((5 : ℕ) ≤ 20 / 2) ∧
    open_fail_update Mode.train 5 20 9 7 = 9 := by
  have h1 := retry_substitution_policy Mode.train 0 20 5 7
  have h2 := retry_substitution_policy Mode.train 5 20 9 7
  exact ⟨by decide, h1.1 (by decide), by decide, h2.2.2.2.2 (by decide)⟩

/-- The retry loop skeleton of __getitem__ (for i_try in
range(self._num_retries), lines 334-542): tryOnce abstracts one attempt
(container open plus decode plus the pure window work; none means the
attempt failed), subst the index substitution applied before the next
attempt.  The result is paired with the number of attempts made; falling
off the end of the for loop is Python's implicit return None. -/
def retry_from {R : Type} (tryOnce : ℕ → ℕ → Option R)
    (subst : ℕ → ℕ → ℕ) : ℕ → ℕ → ℕ → Option R × ℕ
  | 0, _, _ => (none, 0)
  | rem + 1, i_try, index =>
    match tryOnce i_try index with
    | some r => (some r, 1)
    | none =>
      let p := retry_from tryOnce subst rem (i_try + 1) (subst i_try index)
      (p.1, p.2 + 1)

/-- The full bounded fetch loop: num_retries attempts starting at i_try = 0
with the sampler-provided index. -/
def getitem_retry {R : Type} (num_retries : ℕ) (tryOnce : ℕ → ℕ → Option R)
    (subst : ℕ → ℕ → ℕ) (index : ℕ) : Option R × ℕ :=
  retry_from tryOnce subst num_retries 0 index

lemma retry_from_le {R : Type} (tryOnce : ℕ → ℕ → Option R)
    (subst : ℕ → ℕ → ℕ) :
    ∀ rem i_try index, (retry_from tryOnce subst rem i_try index).2 ≤ rem := by
  intro rem
  induction rem with
  | zero => intro i_try index; simp [retry_from]
  | succ rem ih =>
    intro i_try index
    rw [retry_from]
    cases tryOnce i_try index with
    | some r => simp
    | none =>
      dsimp only
      have := ih (i_try + 1) (subst i_try index)
      omega

lemma retry_from_all_fail {R : Type} (tryOnce : ℕ → ℕ → Option R)
    (subst : ℕ → ℕ → ℕ) (hfail : ∀ i x, tryOnce i x = none) :
    ∀ rem i_try index,
      retry_from tryOnce subst rem i_try index = (none, rem) := by
  intro rem
  induction rem with
  | zero => intro i_try index; simp [retry_from]
  | succ rem ih =>
    intro i_try index
    rw [retry_from, hfail]
    dsimp only
    rw [ih]

/-- C6: every fetch makes at most num_retries attempts, and when every
attempt fails the loop terminates after exactly num_retries attempts with
none — the Python function falls off the for loop and implicitly returns
None to the caller, raising no terminal error. -/
theorem getitem_retry_bounded {R : Type} (num_retries : ℕ)
    (tryOnce : ℕ → ℕ → Option R) (subst : ℕ → ℕ → ℕ) (index : ℕ) :
    (getitem_retry num_retries tryOnce subst index).2 ≤ num_retries ∧
    ((∀ i x, tryOnce i x = none) →
      getitem_retry num_retries tryOnce subst index = (none, num_retries)) :=
  ⟨retry_from_le tryOnce subst num_retries 0 index,
    fun hfail => retry_from_all_fail tryOnce subst hfail num_retries 0 index⟩

theorem getitem_retry_bounded_witness :
    (getitem_retry 20 (fun _ _ => (none : Option ℕ)) (fun _ x => x) 0).2 ≤ 20 ∧
    getitem_retry 20 (fun _ _ => (none : Option ℕ)) (fun _ x => x) 0 =
      (none, 20) := by
  have h := getitem_retry_bounded 20 (fun _ _ => (none : Option ℕ))
    (fun _ x => x) 0
  exact ⟨h.1, h.2 (fun _ _ => rfl)⟩

/-- __len__ (lines 544-552): when the em attribute exists, em > 1 and the
mode is train, report n * em, otherwise report n (n the number of stored
logical samples). -/
def dataset_len (n : ℕ) (em : Option ℕ) (mode : Mode) : ℕ :=
  match em with
  | some m => if 1 < m ∧ mode = Mode.train then n * m else n
  | none => n

/-- The index wrap of __getitem__ (lines 283-284): when the em attribute
exists and em > 1, the incoming index is reduced modulo the true number of
stored samples before any use. -/
def effective_index (index n : ℕ) (em : Option ℕ) : ℕ :=
  match em with
  | some m => if 1 < m then index % n else index
  | none => index

/-- C8: with epoch multiplier m > 1 and train mode the reported length is
n * m and __getitem__ wraps the incoming index modulo n before use; with
any non-train mode the reported length is n for every multiplier; in
particular a 10-entry train manifest with multiplier 3 reports 30, and 10
for val and test. -/
theorem dataset_len_epoch_mul (n m index : ℕ) (mode : Mode) (hm : 1 < m) :
    (mode = Mode.train → dataset_len n (some m) mode = n * m) ∧
    (mode ≠ Mode.train → ∀ em2 : Option ℕ, dataset_len n em2 mode = n) ∧
    effective_index index n (some m) = index % n ∧
    dataset_len 10 (some 3) Mode.train = 30 ∧
    dataset_len 10 (some 3) Mode.val = 10 ∧
    dataset_len 10 (some 3) Mode.test = 10 := by
  refine ⟨?_, ?_, ?_, by decide, by decide, by decide⟩
  · intro h
    simp [dataset_len, hm, h]
  · intro h em2
    cases em2 with
    | none => rfl
    | some m2 =>
      simp [dataset_len, h]
  · simp [effective_index, hm]

theorem dataset_len_epoch_mul_witness :
    (1 < 3) ∧
    (dataset_len 10 (some 3) Mode.train = 10 * 3) ∧
    (Mode.val ≠ Mode.train) ∧
    dataset_len 10 (some 3) Mode.val = 10 ∧
    effective_index 25 10 (some 3) = 25 % 10 := by
  have h := dataset_len_epoch_mul 10 3 25 Mode.train (by decide)
  have h2 := dataset_len_epoch_mul 10 3 25 Mode.val (by decide)
  exact ⟨by decide, h.1 rfl, by decide, h2.2.1 (by decide) (some 3), h.2.2.1⟩

/-- Manifest path extension stripping (line 230): path.split(".")[0], the
text before the FIRST dot of the path. -/
def strip_ext (path : List Char) : List Char :=
  (py_split '.' path).headD []

/-- Modelled from the spec: the claim says the text after the FINAL dot
(and only that, together with the dot) is removed, the path being stored
unchanged when it has no dot. -/
def strip_ext_claim (path : List Char) : List Char :=
  if '.' ∈ path then ((path.reverse.dropWhile (fun c => c ≠ '.')).tail).reverse
  else path

/-- C9 counterexample: for the path "a.b.mp4" the source stores "a" (it
splits at the FIRST dot), while the claim (strip only the text from the
final dot) would store "a.b". -/
theorem strip_ext_counterexample :
    strip_ext ['a', '.', 'b', '.', 'm', 'p', '4'] = ['a'] ∧
    strip_ext_claim ['a', '.', 'b', '.', 'm', 'p', '4'] = ['a', '.', 'b'] ∧
    strip_ext ['a', '.', 'b', '.', 'm', 'p', '4'] ≠
      strip_ext_claim ['a', '.', 'b', '.', 'm', 'p', '4'] := by
  refine ⟨by decide, by decide, by decide⟩

lemma py_split_headD (c : Char) (l : List Char) :
    (py_split c l).headD [] = l.takeWhile (fun x => x ≠ c) := by
  induction l with
  | nil => rfl
  | cons x xs ih =>
    rw [py_split]
    by_cases hx : x = c
    · simp [hx]
    · rw [if_neg hx]
      dsimp only [List.headD_cons]
      rw [ih]
      simp [List.takeWhile_cons, hx]

/-- C9 (amended): the stored path is the longest dot-free PREFIX of the
original path — everything from the first dot onward is stripped — and a
path containing no dot is stored unchanged; for "a.b.mp4" the stored path
is "a". -/
theorem strip_ext_correct (path : List Char) (hnd : '.' ∉ path) :
    (∀ p : List Char, strip_ext p = p.takeWhile (fun x => x ≠ '.')) ∧
    strip_ext path = path ∧
    strip_ext ['a', '.', 'b', '.', 'm', 'p', '4'] = ['a'] := by
  refine ⟨fun p => py_split_headD '.' p, ?_, by decide⟩
  rw [strip_ext, py_split_headD]
  rw [List.takeWhile_eq_self_iff]
  intro a ha
  simp only [ne_eq, decide_eq_true_eq]
  intro hac
  exact hnd (hac ▸ ha)

theorem strip_ext_correct_witness :
    ('.' ∉ (['a', 'b'] : List Char)) ∧
    strip_ext ['a', 'b'] = ['a', 'b'] ∧
    strip_ext ['a', '.', 'b', '.', 'm', 'p', '4'] = ['a'] := by
  have h := strip_ext_correct ['a', 'b'] (by decide)
  exact ⟨by decide, h.2.1, h.2.2⟩

/-- The per-dataset state built once by Howto100m._construct_loader
(lines 195-262): the parallel arrays indexed by logical sample, together
with the on-disk per-video caption tables (the pd.read_csv of line 375 is
modelled as a pure lookup from stored video path to rows; __getitem__ only
ever reads these files). -/
structure DatasetState where
  path_to_videos : List (List Char)
  labels : List ℤ
  durations : List ℚ
  starts : List (Option ℚ)
  stops : List (Option ℚ)
  spatial_temporal_idx : List ℕ
  caption_disk : List Char → List CapRow

/-- The caption minimum-length block of __getitem__ (lines 394-416 and
430): when min_len > 0, run the expansion loop and write the merged text
and bounds back into the LOCAL caption table (lines 414-416 mutate cap,
the value pd.read_csv just returned, three cells of row ind), then read
the selected row's bounds back from that local table (line 430).  Returns
the selected window together with the mutated local table. -/
def caption_step (cap : List CapRow) (ind min_len : ℕ) :
    ℚ × ℚ × List CapRow :=
  if 0 < min_len then
    let r := min_len_expand cap ind min_len
    let cap2 := cap.set ind ⟨r.s, r.e, some r.q⟩
    ((cap2.getD ind default).start, (cap2.getD ind default).stop, cap2)
  else ((cap.getD ind default).start, (cap.getD ind default).stop, cap)

/-- The body of the retry loop of __getitem__ (lines 334-542), with the
dataset state threaded explicitly and the external collaborators as
oracles: open_ok and decode_ok give each attempt's container-open and
decode outcome, rand_row the random.randint used to pick a caption row,
rand_idx the random.randint drawn when a failed attempt substitutes the
index, u the random.uniform inside get_start_end_idx.  Per attempt: on
open failure apply open_fail_update and continue; otherwise read the
sample's duration and fixed window, run the caption branch (line 369:
active when no fixed start exists or a caption path is configured, and
caption data is available), fall back to get_start_end_idx when no window
is known (line 431), re-center a too-short window (lines 438-440), then
narrow by NUM_FRAMES or FD (lines 442-456); on decode failure apply
decode_fail_update and continue, on success return (label, index).  The
external frame post-processing (normalize, crop, tokenizer, embedding
load) consumes locals only and is omitted, as is the optional FIX_END
branch (lines 459-468), which also only rebinds locals. -/
def getitem_go (st : DatasetState) (mode : Mode) (caps_some labels_some : Bool)
    (min_len : ℕ) (FD num_frames : ℚ) (num_retries : ℕ)
    (temporal_sample_index : ℤ) (num_ensemble_views : ℚ)
    (open_ok decode_ok : ℕ → ℕ → Bool) (rand_row rand_idx : ℕ → ℕ)
    (u : ℚ → ℚ → ℚ) : ℕ → ℕ → ℕ → Option (ℤ × ℕ) × DatasetState
  | 0, _, _ => (none, st)
  | rem + 1, i_try, index =>
    if open_ok i_try index = false then
      getitem_go st mode caps_some labels_some min_len FD num_frames
        num_retries temporal_sample_index num_ensemble_views open_ok
        decode_ok rand_row rand_idx u rem (i_try + 1)
        (open_fail_update mode i_try num_retries index (rand_idx i_try))
    else
      let duration := st.durations.getD index 0
      let s0 := st.starts.getD index none
      let e0 := st.stops.getD index none
      let win :=
        if (s0 = none ∨ caps_some = true) ∧
            (caps_some = true ∨ labels_some = true) then
          let cap := st.caption_disk (st.path_to_videos.getD index [])
          let ind := match s0, e0 with
            | some s, some e => select_caption_index cap s e
            | _, _ => rand_row i_try % cap.length
          let cs := caption_step cap ind min_len
          (some cs.1, some cs.2.1)
        else (s0, e0)
      let w1 :=
        match win.1, win.2 with
        | some s, some e => (s, e)
        | _, _ =>
          get_start_end_idx duration FD temporal_sample_index
            num_ensemble_views u
      let w2 := reconcile_to_fd w1.1 w1.2 FD duration
      let w3 :=
        if num_frames < w2.2 - w2.1 ∧ FD = 0 then
          ((w2.2 + w2.1) / 2 - num_frames / 2,
            (w2.2 + w2.1) / 2 + num_frames / 2)
        else if 0 < FD ∧ FD < w2.2 - w2.1 then
          let sub := get_start_end_idx (w2.2 - w2.1) FD temporal_sample_index
            num_ensemble_views u
          (sub.1 + w2.1, sub.2 + w2.1)
        else w2
      if decode_ok i_try index = false then
        getitem_go st mode caps_some labels_some min_len FD num_frames
          num_retries temporal_sample_index num_ensemble_views open_ok
          decode_ok rand_row rand_idx u rem (i_try + 1)
          (decode_fail_update mode i_try num_retries index (rand_idx i_try))
      else
        (some (st.labels.getD index 0, index), st)

/-- One fetch (__getitem__, lines 264-542): wrap the sampler index by the
epoch multiplier (lines 283-284), derive the temporal sample index (-1 in
train and val, the stored spatio-temporal index divided by the number of
spatial crops in test, lines 285-316), then run the bounded retry loop. -/
def getitem_model (st : DatasetState) (mode : Mode)
    (em : Option ℕ) (caps_some labels_some : Bool) (min_len : ℕ)
    (FD num_frames : ℚ) (num_retries num_spatial_crops : ℕ)
    (num_ensemble_views : ℚ) (open_ok decode_ok : ℕ → ℕ → Bool)
    (rand_row rand_idx : ℕ → ℕ) (u : ℚ → ℚ → ℚ) (index : ℕ) :
    Option (ℤ × ℕ) × DatasetState :=
  let index1 := effective_index index st.path_to_videos.length em
  let temporal_sample_index : ℤ :=
    if mode = Mode.test then
      ((st.spatial_temporal_idx.getD index1 0) / num_spatial_crops : ℕ)
    else -1
  getitem_go st mode caps_some labels_some min_len FD num_frames num_retries
    temporal_sample_index num_ensemble_views open_ok decode_ok rand_row
    rand_idx u num_retries 0 index1

lemma getitem_go_state (st : DatasetState) (mode : Mode)
    (caps_some labels_some : Bool) (min_len : ℕ) (FD num_frames : ℚ)
    (num_retries : ℕ) (temporal_sample_index : ℤ) (num_ensemble_views : ℚ)
    (open_ok decode_ok : ℕ → ℕ → Bool) (rand_row rand_idx : ℕ → ℕ)
    (u : ℚ → ℚ → ℚ) :
    ∀ fuel i_try index,
      (getitem_go st mode caps_some labels_some min_len FD num_frames
        num_retries temporal_sample_index num_ensemble_views open_ok
        decode_ok rand_row rand_idx u fuel i_try index).2 = st := by
  intro fuel
  induction fuel with
  | zero => intro i_try index; rfl
  | succ fuel ih =>
    intro i_try index
    rw [getitem_go]
    by_cases ho : open_ok i_try index = false
    · rw [if_pos ho]
      exact ih (i_try + 1) _
    · rw [if_neg ho]
      dsimp only
      by_cases hd : decode_ok i_try index = false
      · rw [if_pos hd]
        exact ih (i_try + 1) _
      · rw [if_neg hd]

/-- C10: a fetch leaves the dataset state untouched: whatever the mode,
configuration, oracle outcomes and sampler index, the state coming out of
getitem_model is exactly the state that went in — the arrays built by
_construct_loader are never written, and the only mutation of caption data
(the write-back inside caption_step) hits the local table freshly read
from caption_disk during that same call, so no caption mutation survives
the call (in particular the caption tables seen by any later call are the
same ones this call saw). -/
theorem getitem_model_no_mutation (st : DatasetState) (mode : Mode)
    (em : Option ℕ) (caps_some labels_some : Bool) (min_len : ℕ)
    (FD num_frames : ℚ) (num_retries num_spatial_crops : ℕ)
    (num_ensemble_views : ℚ) (open_ok decode_ok : ℕ → ℕ → Bool)
    (rand_row rand_idx : ℕ → ℕ) (u : ℚ → ℚ → ℚ) (index : ℕ) :
    (getitem_model st mode em caps_some labels_some min_len FD num_frames
      num_retries num_spatial_crops num_ensemble_views open_ok decode_ok
      rand_row rand_idx u index).2 = st ∧
    ((getitem_model st mode em caps_some labels_some min_len FD num_frames
      num_retries num_spatial_crops num_ensemble_views open_ok decode_ok
      rand_row rand_idx u index).2).caption_disk = st.caption_disk := by
  have h := getitem_go_state st mode caps_some labels_some min_len FD
    num_frames num_retries
    (if mode = Mode.test then
      ((st.spatial_temporal_idx.getD
        (effective_index index st.path_to_videos.length em) 0) /
          num_spatial_crops : ℕ)
    else -1) num_ensemble_views open_ok decode_ok rand_row rand_idx u
    num_retries 0 (effective_index index st.path_to_videos.length em)
  refine ⟨h, by rw [show (getitem_model st mode em caps_some labels_some
    min_len FD num_frames num_retries num_spatial_crops num_ensemble_views
    open_ok decode_ok rand_row rand_idx u index).2 = st from h]⟩
